import Mathlib

/-!
Shallow embedding of `process_pdfs.py` (repository Round1A).

The program extracts a title and an H1/H2/H3 outline from PDF files.
The PDF parsing library (fitz) is a black box delivering, per page, text
spans with `text`, `size`, `flags`, `font` and `bbox`; we model a document
as the metadata title (`Option String`, absent ↦ `""` as Python's
`doc.metadata.get("title", "")`) together with the list of pages, each a
list of raw spans.

Python string methods (`strip`, `isupper`, `istitle`, `lower`, the `re`
patterns) are modelled on `List Char` in their ASCII semantics; Python's
stable `list.sort` / `sorted` with a key is modelled by
`List.insertionSort` with the corresponding total preorder (insertion
sort is stable, and a stable sort of a total preorder is unique).
Font sizes (Python floats) are modelled as `ℚ`.
-/

/-- ASCII upper-case letter, Python's `[A-Z]` and the cased/upper notion
of `str.isupper`/`str.istitle` restricted to ASCII. -/
def isUpperCh (c : Char) : Bool := 65 ≤ c.toNat && c.toNat ≤ 90

/-- ASCII lower-case letter. -/
def isLowerCh (c : Char) : Bool := 97 ≤ c.toNat && c.toNat ≤ 122

/-- ASCII digit, Python's `\d` (ASCII scope). -/
def isDigitCh (c : Char) : Bool := 48 ≤ c.toNat && c.toNat ≤ 57

/-- Python whitespace (`str.strip`, regex `\s`), ASCII scope:
space, `\t`, `\n`, `\v`, `\f`, `\r`. -/
def pyIsSpace (c : Char) : Bool := c.toNat == 32 || (9 ≤ c.toNat && c.toNat ≤ 13)

/-- ASCII `str.lower` on one character. -/
def toLowerCh (c : Char) : Char :=
  if isUpperCh c then Char.ofNat (c.toNat + 32) else c

/-- `str.strip()`: drop leading and trailing whitespace. -/
def pyStrip (s : List Char) : List Char :=
  ((s.dropWhile pyIsSpace).reverse.dropWhile pyIsSpace).reverse

/-- `re.match(r'^\d+$', s)`: the whole string is one or more digits. -/
def isAllDigits (s : List Char) : Bool := !s.isEmpty && s.all isDigitCh

/-- `re.match(r'^\d+/\d+/\d+$', s)`: digits, slash, digits, slash, digits.
Since `/` is not a digit, the regex is equivalent to maximal-munch runs. -/
def isDateLike (s : List Char) : Bool :=
  let d1 := s.takeWhile isDigitCh
  let r1 := s.dropWhile isDigitCh
  !d1.isEmpty &&
    match r1 with
    | '/' :: r2 =>
        let d2 := r2.takeWhile isDigitCh
        let r3 := r2.dropWhile isDigitCh
        !d2.isEmpty &&
          match r3 with
          | '/' :: r4 =>
              let d3 := r4.takeWhile isDigitCh
              let r5 := r4.dropWhile isDigitCh
              !d3.isEmpty && r5.isEmpty
          | _ => false
    | _ => false

/-- Character class `[\d\.\s]` of the enumeration-prefix pattern. -/
def isEnumClass (c : Char) : Bool := isDigitCh c || c == '.' || pyIsSpace c

/-- After at least one class character: keep consuming class characters;
the first non-class character must be `[A-Z]`. -/
def enumTail : List Char → Bool
  | [] => false
  | c :: rest => if isEnumClass c then enumTail rest else isUpperCh c

/-- `re.match(r'^[\d\.\s]+[A-Z]', s)` (match at start, not anchored at
the end). As `[A-Z]` is disjoint from the class, backtracking is
equivalent to the maximal munch performed here. -/
def enumMatch : List Char → Bool
  | [] => false
  | c :: rest => isEnumClass c && enumTail rest

/-- `str.isupper()` (ASCII model): at least one cased character and no
lower-case character — equivalently, some upper-case character and no
lower-case one. -/
def pyIsUpper (s : List Char) : Bool :=
  s.any isUpperCh && s.all (fun c => !isLowerCh c)

/-- State-machine kernel of `str.istitle()`: `prevCased` says whether the
previous character was cased, `seen` whether any cased character occurred. -/
def istitleGo : Bool → Bool → List Char → Bool
  | _, seen, [] => seen
  | prevCased, seen, c :: rest =>
    if isUpperCh c then
      if prevCased then false else istitleGo true true rest
    else if isLowerCh c then
      if prevCased then istitleGo true true rest else false
    else istitleGo false seen rest

/-- `str.istitle()` (ASCII model): upper-case only after uncased,
lower-case only after cased, at least one cased character. -/
def pyIsTitle (s : List Char) : Bool := istitleGo false false s

/-- `needle in hay` for strings (substring containment). -/
def containsSub (needle : List Char) : List Char → Bool
  | [] => needle.isEmpty
  | c :: rest => needle.isPrefixOf (c :: rest) || containsSub needle rest

/-- The fixed boilerplate vocabulary of `is_heading_text`. -/
def headingWords : List String :=
  ["introduction", "conclusion", "chapter", "section", "appendix",
   "references", "bibliography", "index", "abstract", "summary"]

/-- `is_heading_text(text)`: heading-shaped text, rules in source order
(rejections first, then the four acceptance rules). -/
def is_heading_text (text : String) : Bool :=
  if text.data.isEmpty || (pyStrip text.data).length < 2 then false
  else
    let text_clean := pyStrip text.data
    if isAllDigits text_clean then false
    else if isDateLike text_clean then false
    else if text_clean.length < 3 then false
    else if pyIsUpper text_clean && decide (text_clean.length > 2) then true
    else if pyIsTitle text_clean && decide (3 ≤ text_clean.length)
            && decide (text_clean.length ≤ 100) then true
    else if enumMatch text_clean then true
    else if headingWords.any
        (fun w => containsSub w.data (text_clean.map toLowerCh)) then true
    else false

/-- A raw span as delivered by the PDF library for one page:
`span["text"]`, `span["size"]`, `span["flags"]`, `span["font"]`,
`span["bbox"]` (blocks and lines are flattened, as the collection loop
only ever appends spans in order). -/
structure RawSpan where
  text : String
  size : ℚ
  flags : ℕ
  font : String
  bbox : ℚ × ℚ × ℚ × ℚ
deriving DecidableEq

/-- One entry of `text_blocks`: the stripped non-empty text together
with the span metadata, the 1-based page number and the derived
bold/italic bits. -/
structure Block where
  text : String
  size : ℚ
  flags : ℕ
  font : String
  page : ℕ
  bbox : ℚ × ℚ × ℚ × ℚ
  is_bold : Bool
  is_italic : Bool
deriving DecidableEq

/-- One outline entry `{"level": ..., "text": ..., "page": ...}`. -/
structure Entry where
  level : String
  text : String
  page : ℕ
deriving DecidableEq

/-- The per-document result `{"title": ..., "outline": ...}`. -/
structure DocResult where
  title : String
  outline : List Entry
deriving DecidableEq

/-- The span-collection loop: for each page (1-based), keep spans whose
stripped text is non-empty, recording text (stripped), size, flags, font,
page, bbox, and the bold (bit 4) / italic (bit 1) flags. -/
def collectBlocks (pages : List (List RawSpan)) : List Block :=
  (pages.enum.map (fun pg =>
    pg.2.filterMap (fun sp =>
      let t := pyStrip sp.text.data
      if t.isEmpty then none
      else some { text := ⟨t⟩, size := sp.size, flags := sp.flags,
                  font := sp.font, page := pg.1 + 1, bbox := sp.bbox,
                  is_bold := sp.flags.testBit 4,
                  is_italic := sp.flags.testBit 1 }))).flatten

/-- `[b for b in text_blocks if b["page"] == 1]`. -/
def firstPageBlocks (tbs : List Block) : List Block :=
  tbs.filter (fun b => b.page == 1)

/-- The Python sort key `(-size, bbox[1])` compared lexicographically:
larger font first, then higher on the page (smaller y) first. -/
def titleKeyLe (a b : Block) : Prop :=
  b.size < a.size ∨ (a.size = b.size ∧ a.bbox.2.1 ≤ b.bbox.2.1)

instance : DecidableRel titleKeyLe := fun a b =>
  decidable_of_iff (b.size < a.size ∨ (a.size = b.size ∧ a.bbox.2.1 ≤ b.bbox.2.1)) Iff.rfl

/-- The condition of the title scan loop:
`is_heading_text(block["text"]) and len(block["text"]) > 3`. -/
def scanPred (b : Block) : Bool :=
  is_heading_text b.text && decide (b.text.length > 3)

/-- The title-resolution logic of `extract_title_and_headings`:
metadata title unless missing/empty/"Unknown"; otherwise scan the 5
largest page-1 spans for a heading-shaped text longer than 3; otherwise,
if the title is still empty or shorter than 3, the largest page-1 span. -/
def resolveTitle (meta : Option String) (tbs : List Block) : String :=
  let title := meta.getD ""
  if title = "" ∨ title = "Unknown" then
    let fpb := firstPageBlocks tbs
    if fpb.isEmpty then title
    else
      let sorted := List.insertionSort titleKeyLe fpb
      let title1 :=
        match (sorted.take 5).find? scanPred with
        | some b => b.text
        | none => title
      if title1 = "" ∨ title1.length < 3 then
        ((sorted.head?).map (fun b => b.text)).getD title1
      else title1
  else title

/-- The distinct font sizes of heading-classified blocks
(the keys of `size_groups`). -/
def candidateSizes (tbs : List Block) : List ℚ :=
  ((tbs.filter (fun b => is_heading_text b.text)).map (fun b => b.size)).dedup

/-- Descending order on sizes, `sorted(..., reverse=True)`. -/
def sizeGe (a b : ℚ) : Prop := b ≤ a

instance : DecidableRel sizeGe := fun a b =>
  decidable_of_iff (b ≤ a) Iff.rfl

/-- `font_sizes = sorted(size_groups.keys(), reverse=True)`. -/
def fontSizes (tbs : List Block) : List ℚ :=
  List.insertionSort sizeGe (candidateSizes tbs)

/-- `heading_levels`: the top 3 font sizes paired with H1, H2, H3. -/
def headingLevels (tbs : List Block) : List (ℚ × String) :=
  ((fontSizes tbs).take 3).zip ["H1", "H2", "H3"]

/-- Lookup `heading_levels[size]` (`none` when `size not in heading_levels`). -/
def levelOf (tbs : List Block) (sz : ℚ) : Option String :=
  ((headingLevels tbs).find? (fun p => decide (p.1 = sz))).map (fun p => p.2)

/-- The filter of the heading loop: heading-shaped text, anchor font
size, and text different from the resolved title. -/
def qualifies (tbs : List Block) (title : String) (b : Block) : Bool :=
  is_heading_text b.text && (levelOf tbs b.size).isSome && !(b.text == title)

/-- The heading-building loop (before sorting): every qualifying block
becomes an entry at its assigned level. -/
def buildHeadings (tbs : List Block) (title : String) : List Entry :=
  (tbs.filter (qualifies tbs title)).map
    (fun b => ⟨(levelOf tbs b.size).getD "", b.text, b.page⟩)

/-- `x.toNat`-lexicographic `≤` on character lists: Python's string
comparison by code point. -/
def listLe : List Char → List Char → Bool
  | [], _ => true
  | _ :: _, [] => false
  | a :: as, b :: bs =>
    if a.toNat < b.toNat then true
    else if b.toNat < a.toNat then false
    else listLe as bs

/-- Python string `≤` (lexicographic by code point). -/
def strLe (a b : String) : Prop := listLe a.data b.data = true

instance : DecidableRel strLe := fun a b =>
  decidable_of_iff (listLe a.data b.data = true) Iff.rfl

/-- The final sort key `(page, level)` of the outline, compared as a
Python tuple (string comparison on the level label). -/
def entryLeP (a b : Entry) : Prop :=
  a.page < b.page ∨ (a.page = b.page ∧ strLe a.level b.level)

instance : DecidableRel entryLeP := fun a b =>
  decidable_of_iff (a.page < b.page ∨ (a.page = b.page ∧ strLe a.level b.level)) Iff.rfl

/-- `extract_title_and_headings`, as a function of the metadata title and
the pages of raw spans. -/
def extract (meta : Option String) (pages : List (List RawSpan)) : DocResult :=
  let text_blocks := collectBlocks pages
  if text_blocks.isEmpty then ⟨"Unknown Title", []⟩
  else
    let title := resolveTitle meta text_blocks
    ⟨title, List.insertionSort entryLeP (buildHeadings text_blocks title)⟩

/-- The fixed placeholder written when processing a file raises. -/
def placeholderResult : DocResult := ⟨"Error Processing Document", []⟩

/-- `filename.lower().endswith(".pdf")`. -/
def endsWithPdf (name : String) : Bool :=
  (".pdf".data).isSuffixOf (name.data.map toLowerCh)

/-- `filename.rsplit(".", 1)[0]`: everything before the last dot
(the whole name when there is no dot). -/
def baseName (s : List Char) : List Char :=
  if s.contains '.' then
    ((s.reverse.dropWhile (fun c => !(c == '.'))).drop 1).reverse
  else s

/-- The sidecar file name `<basename>.json`. -/
def jsonName (name : String) : String := ⟨baseName name.data ++ ".json".data⟩

/-- One JSON sidecar written by the driver. -/
structure OutFile where
  name : String
  content : DocResult
deriving DecidableEq

/-- The parsed form of one input file handed to `extract`: either the
metadata title and the pages, or the message of the exception raised by
span collection / classification. -/
abbrev ParsedDoc := Except String (Option String × List (List RawSpan))

/-- The body of the per-file loop: `try`/`except` around
`extract_title_and_headings`, always producing a sidecar. -/
def processOne (name : String) (r : ParsedDoc) : OutFile :=
  match r with
  | .ok d => ⟨jsonName name, extract d.1 d.2⟩
  | .error _ => ⟨jsonName name, placeholderResult⟩

/-- The batch driver: every `.pdf` file (case-insensitive extension) of
the directory listing gets exactly one sidecar, in listing order. -/
def driver (files : List (String × ParsedDoc)) : List OutFile :=
  files.filterMap (fun f =>
    if endsWithPdf f.1 then some (processOne f.1 f.2) else none)

/-- `str.strip()` lifted to `String`. -/
def pyStripStr (s : String) : String := ⟨pyStrip s.data⟩

theorem pyIsSpace_not_upper {c : Char} (h : pyIsSpace c = true) :
    isUpperCh c = false := by
  simp only [pyIsSpace, Bool.or_eq_true, beq_iff_eq, Bool.and_eq_true,
    decide_eq_true_eq] at h
  simp only [isUpperCh, Bool.and_eq_false_iff, decide_eq_false_iff_not, not_le]
  omega

theorem pyIsSpace_not_lower {c : Char} (h : pyIsSpace c = true) :
    isLowerCh c = false := by
  simp only [pyIsSpace, Bool.or_eq_true, beq_iff_eq, Bool.and_eq_true,
    decide_eq_true_eq] at h
  simp only [isLowerCh, Bool.and_eq_false_iff, decide_eq_false_iff_not, not_le]
  omega

theorem dropWhile_eq_pyStrip_append (s : List Char) :
    s.dropWhile pyIsSpace =
      pyStrip s ++ ((s.dropWhile pyIsSpace).reverse.takeWhile pyIsSpace).reverse := by
  conv_lhs => rw [← List.reverse_reverse (s.dropWhile pyIsSpace),
    ← List.takeWhile_append_dropWhile pyIsSpace (s.dropWhile pyIsSpace).reverse,
    List.reverse_append]
  rfl

/-- `s` is some leading whitespace, then `pyStrip s`, then trailing whitespace. -/
theorem pyStrip_decomp (s : List Char) :
    ∃ ws1 ws2, (∀ c ∈ ws1, pyIsSpace c = true) ∧ (∀ c ∈ ws2, pyIsSpace c = true) ∧
      s = ws1 ++ pyStrip s ++ ws2 := by
  refine ⟨s.takeWhile pyIsSpace,
    ((s.dropWhile pyIsSpace).reverse.takeWhile pyIsSpace).reverse, ?_, ?_, ?_⟩
  · exact fun c hc => List.mem_takeWhile_imp hc
  · intro c hc
    rw [List.mem_reverse] at hc
    exact List.mem_takeWhile_imp hc
  · rw [List.append_assoc, ← dropWhile_eq_pyStrip_append,
      List.takeWhile_append_dropWhile]

theorem dropWhile_dropWhile_self {α : Type} (p : α → Bool) (l : List α) :
    (l.dropWhile p).dropWhile p = l.dropWhile p := by
  have h := List.head?_dropWhile_not p l
  cases hd : l.dropWhile p with
  | nil => simp
  | cons a t =>
    rw [hd] at h
    simp only [List.head?_cons] at h
    simp [List.dropWhile_cons, h]

theorem pyStrip_head_not_space {s : List Char} {a : Char} {l : List Char}
    (h : pyStrip s = a :: l) : pyIsSpace a = false := by
  have hu := dropWhile_eq_pyStrip_append s
  rw [h] at hu
  have hh := List.head?_dropWhile_not pyIsSpace s
  rw [hu] at hh
  simpa using hh

theorem dropWhile_pyStrip (s : List Char) :
    (pyStrip s).dropWhile pyIsSpace = pyStrip s := by
  cases h : pyStrip s with
  | nil => simp
  | cons a l =>
    have ha := pyStrip_head_not_space h
    simp [List.dropWhile_cons, ha]

theorem reverse_pyStrip_dropWhile (s : List Char) :
    (pyStrip s).reverse.dropWhile pyIsSpace = (pyStrip s).reverse := by
  rw [pyStrip, List.reverse_reverse]
  exact dropWhile_dropWhile_self pyIsSpace _

theorem pyStrip_idem (s : List Char) : pyStrip (pyStrip s) = pyStrip s := by
  show (((pyStrip s).dropWhile pyIsSpace).reverse.dropWhile pyIsSpace).reverse = pyStrip s
  rw [dropWhile_pyStrip, reverse_pyStrip_dropWhile, List.reverse_reverse]

theorem istitleGo_all_space {ws : List Char} (h : ∀ c ∈ ws, pyIsSpace c = true) :
    ∀ p seen, istitleGo p seen ws = seen := by
  induction ws with
  | nil => intro p seen; rfl
  | cons c cs ih =>
    intro p seen
    have hc := h c (by simp)
    simp only [istitleGo, pyIsSpace_not_upper hc, pyIsSpace_not_lower hc,
      Bool.false_eq_true, if_false]
    exact ih (fun d hd => h d (by simp [hd])) false seen

theorem istitleGo_space_append {ws : List Char} (h : ∀ c ∈ ws, pyIsSpace c = true)
    (seen : Bool) (t : List Char) :
    istitleGo false seen (ws ++ t) = istitleGo false seen t := by
  induction ws with
  | nil => rfl
  | cons c cs ih =>
    have hc := h c (by simp)
    simp only [List.cons_append, istitleGo, pyIsSpace_not_upper hc,
      pyIsSpace_not_lower hc, Bool.false_eq_true, if_false]
    exact ih (fun d hd => h d (by simp [hd]))

theorem istitleGo_append_space (t : List Char) {ws : List Char}
    (h : ∀ c ∈ ws, pyIsSpace c = true) :
    ∀ p seen, istitleGo p seen (t ++ ws) = istitleGo p seen t := by
  induction t with
  | nil =>
    intro p seen
    exact istitleGo_all_space h p seen
  | cons c cs ih =>
    intro p seen
    simp only [List.cons_append, istitleGo]
    split
    · split
      · rfl
      · exact ih _ _
    · split
      · split
        · exact ih _ _
        · rfl
      · exact ih _ _

theorem pyIsTitle_pyStrip (s : List Char) : pyIsTitle (pyStrip s) = pyIsTitle s := by
  obtain ⟨ws1, ws2, h1, h2, hs⟩ := pyStrip_decomp s
  conv_rhs => rw [pyIsTitle, hs, List.append_assoc]
  rw [pyIsTitle, istitleGo_space_append h1, istitleGo_append_space _ h2]

theorem pyIsUpper_pyStrip (s : List Char) : pyIsUpper (pyStrip s) = pyIsUpper s := by
  obtain ⟨ws1, ws2, h1, h2, hs⟩ := pyStrip_decomp s
  have ha1 : ws1.any isUpperCh = false :=
    List.any_eq_false.mpr (fun c hc => by simp [pyIsSpace_not_upper (h1 c hc)])
  have ha2 : ws2.any isUpperCh = false :=
    List.any_eq_false.mpr (fun c hc => by simp [pyIsSpace_not_upper (h2 c hc)])
  have hb1 : ws1.all (fun c => !isLowerCh c) = true :=
    List.all_eq_true.mpr (fun c hc => by simp [pyIsSpace_not_lower (h1 c hc)])
  have hb2 : ws2.all (fun c => !isLowerCh c) = true :=
    List.all_eq_true.mpr (fun c hc => by simp [pyIsSpace_not_lower (h2 c hc)])
  conv_rhs => rw [hs]
  simp [pyIsUpper, List.any_append, List.all_append, ha1, ha2, hb1, hb2]

/-- A string matched by the date pattern consists of digits and slashes only. -/
theorem isDateLike_chars {s : List Char} (h : isDateLike s = true) :
    ∀ c ∈ s, isDigitCh c = true ∨ c = '/' := by
  intro c hc
  simp only [isDateLike, Bool.and_eq_true] at h
  obtain ⟨h1, h⟩ := h
  rw [← List.takeWhile_append_dropWhile isDigitCh s, List.mem_append] at hc
  rcases hc with hc | hc
  · exact Or.inl (List.mem_takeWhile_imp hc)
  · cases hr1 : s.dropWhile isDigitCh with
    | nil => rw [hr1] at hc; simp at hc
    | cons a r2 =>
      rw [hr1] at hc h
      split at h
      · rename_i x y z
        injection z with ha hr2
        subst ha
        subst hr2
        rw [Bool.and_eq_true] at h
        obtain ⟨h2, h⟩ := h
        rcases List.mem_cons.mp hc with rfl | hm
        · exact Or.inr rfl
        · rw [← List.takeWhile_append_dropWhile isDigitCh r2, List.mem_append] at hm
          rcases hm with hm | hm
          · exact Or.inl (List.mem_takeWhile_imp hm)
          · cases hr3 : r2.dropWhile isDigitCh with
            | nil => rw [hr3] at hm; simp at hm
            | cons b r4 =>
              rw [hr3] at hm h
              split at h
              · rename_i x2 y2 z2
                injection z2 with hb hr4
                subst hb
                subst hr4
                rw [Bool.and_eq_true] at h
                obtain ⟨h3, h4⟩ := h
                rcases List.mem_cons.mp hm with rfl | hm2
                · exact Or.inr rfl
                · rw [← List.takeWhile_append_dropWhile isDigitCh r4,
                    List.mem_append] at hm2
                  rcases hm2 with hm2 | hm2
                  · exact Or.inl (List.mem_takeWhile_imp hm2)
                  · rw [List.isEmpty_iff.mp h4] at hm2
                    simp at hm2
              · simp at h
      · simp at h

theorem not_digit_of_cased {c : Char}
    (h : isUpperCh c = true ∨ isLowerCh c = true) : isDigitCh c = false := by
  rcases h with h | h <;>
    · simp only [isUpperCh, isLowerCh, Bool.and_eq_true, decide_eq_true_eq] at h
      simp only [isDigitCh, Bool.and_eq_false_iff, decide_eq_false_iff_not, not_le]
      omega

theorem not_slash_of_cased {c : Char}
    (h : isUpperCh c = true ∨ isLowerCh c = true) : c ≠ '/' := by
  rintro rfl
  rcases h with h | h <;> simp [isUpperCh, isLowerCh] at h

/-- A string containing a cased character is not all-digits. -/
theorem isAllDigits_eq_false_of_cased {s : List Char} {c : Char} (hc : c ∈ s)
    (h : isUpperCh c = true ∨ isLowerCh c = true) : isAllDigits s = false := by
  cases hall : s.all isDigitCh with
  | false => simp [isAllDigits, hall]
  | true =>
    have := List.all_eq_true.mp hall c hc
    rw [not_digit_of_cased h] at this
    exact absurd this (by simp)

/-- A string containing a cased character is not date-shaped. -/
theorem isDateLike_eq_false_of_cased {s : List Char} {c : Char} (hc : c ∈ s)
    (h : isUpperCh c = true ∨ isLowerCh c = true) : isDateLike s = false := by
  cases hd : isDateLike s with
  | false => rfl
  | true =>
    rcases isDateLike_chars hd c hc with hdig | hslash
    · rw [not_digit_of_cased h] at hdig
      exact absurd hdig (by simp)
    · exact absurd hslash (not_slash_of_cased h)

theorem istitleGo_cased {s : List Char} :
    ∀ {p seen : Bool}, istitleGo p seen s = true →
      seen = true ∨ ∃ c ∈ s, isUpperCh c = true ∨ isLowerCh c = true := by
  induction s with
  | nil => intro p seen h; exact Or.inl h
  | cons c rest ih =>
    intro p seen h
    by_cases hu : isUpperCh c = true
    · exact Or.inr ⟨c, by simp, Or.inl hu⟩
    · by_cases hl : isLowerCh c = true
      · exact Or.inr ⟨c, by simp, Or.inr hl⟩
      · rw [Bool.not_eq_true] at hu hl
        simp only [istitleGo, hu, hl, Bool.false_eq_true, if_false] at h
        rcases ih h with h' | ⟨d, hd, hcase⟩
        · exact Or.inl h'
        · exact Or.inr ⟨d, by simp [hd], hcase⟩

/-- A title-case string contains a cased character. -/
theorem pyIsTitle_cased {s : List Char} (h : pyIsTitle s = true) :
    ∃ c ∈ s, isUpperCh c = true ∨ isLowerCh c = true := by
  rcases istitleGo_cased h with h' | h'
  · exact absurd h' (by simp)
  · exact h'

/-- An upper-case string contains a cased character. -/
theorem pyIsUpper_cased {s : List Char} (h : pyIsUpper s = true) :
    ∃ c ∈ s, isUpperCh c = true ∨ isLowerCh c = true := by
  rw [pyIsUpper, Bool.and_eq_true, List.any_eq_true] at h
  obtain ⟨⟨c, hc, hcu⟩, _⟩ := h
  exact ⟨c, hc, Or.inl hcu⟩

/-- C6: every title-case string (Python `istitle`) whose trimmed length
is between 3 and 100 inclusive is accepted by the Heading Classifier. -/
theorem titlecase_is_heading (t : String) (h1 : pyIsTitle t.data = true)
    (h2 : 3 ≤ (pyStrip t.data).length) (h3 : (pyStrip t.data).length ≤ 100) :
    is_heading_text t = true := by
  have ht : pyIsTitle (pyStrip t.data) = true := by rw [pyIsTitle_pyStrip]; exact h1
  obtain ⟨c, hc, hcase⟩ := pyIsTitle_cased ht
  have hdig := isAllDigits_eq_false_of_cased hc hcase
  have hdate := isDateLike_eq_false_of_cased hc hcase
  have htd : t.data ≠ [] := by
    intro hh
    rw [hh] at h2
    simp [pyStrip] at h2
  have e1 : decide ((pyStrip t.data).length < 2) = false := by simp; omega
  have e2 : decide ((pyStrip t.data).length < 3) = false := by simp; omega
  have e3 : decide ((pyStrip t.data).length > 2) = true := by simp; omega
  have e4 : decide (3 ≤ (pyStrip t.data).length) = true := by simp; omega
  have e5 : decide ((pyStrip t.data).length ≤ 100) = true := by simp; omega
  simp only [is_heading_text, hdig, hdate, ht, List.isEmpty_iff, htd,
    e1, e2, e3, e4, e5]
  cases hA : pyIsUpper (pyStrip t.data) <;> simp [hA] <;> exact ⟨htd, h2⟩

/-- Witness for C6 at the concrete input "Hello World". -/
theorem titlecase_is_heading_witness :
    pyIsTitle "Hello World".data = true ∧ 3 ≤ (pyStrip "Hello World".data).length ∧
      (pyStrip "Hello World".data).length ≤ 100 ∧
      is_heading_text "Hello World" = true :=
  ⟨by decide, by decide, by decide,
    titlecase_is_heading "Hello World" (by decide) (by decide) (by decide)⟩

/-- C7 counterexample: "AB " is fully upper-case (Python `isupper`) and
its raw length is 3 > 2, yet the classifier rejects it (its trimmed
length 2 fails the `len(text_clean) < 3` rejection). -/
theorem upper_raw_length_counterexample :
    pyIsUpper "AB ".data = true ∧ "AB ".length > 2 ∧
      is_heading_text "AB " = false := by decide

/-- C7 amended: every fully upper-case string whose TRIMMED length
exceeds 2 is accepted by the Heading Classifier. -/
theorem upper_trimmed_is_heading (t : String) (h1 : pyIsUpper t.data = true)
    (h2 : 2 < (pyStrip t.data).length) : is_heading_text t = true := by
  have hu : pyIsUpper (pyStrip t.data) = true := by rw [pyIsUpper_pyStrip]; exact h1
  obtain ⟨c, hc, hcase⟩ := pyIsUpper_cased hu
  have hdig := isAllDigits_eq_false_of_cased hc hcase
  have hdate := isDateLike_eq_false_of_cased hc hcase
  have htd : t.data ≠ [] := by
    intro hh
    rw [hh] at h2
    simp [pyStrip] at h2
  have e1 : decide ((pyStrip t.data).length < 2) = false := by simp; omega
  have e2 : decide ((pyStrip t.data).length < 3) = false := by simp; omega
  have e3 : decide ((pyStrip t.data).length > 2) = true := by simp; omega
  simp only [is_heading_text, hdig, hdate, hu, List.isEmpty_iff, htd,
    e1, e2, e3]
  simp
  exact ⟨htd, by omega⟩

/-- Witness for the amended C7 at the concrete input "HEADING". -/
theorem upper_trimmed_is_heading_witness :
    pyIsUpper "HEADING".data = true ∧ 2 < (pyStrip "HEADING".data).length ∧
      is_heading_text "HEADING" = true :=
  ⟨by decide, by decide, upper_trimmed_is_heading "HEADING" (by decide) (by decide)⟩

/-- C10: the Heading Classifier is invariant under stripping leading and
trailing whitespace — every rule is evaluated on the stripped text. -/
theorem heading_trim_invariant (t : String) :
    is_heading_text (pyStripStr t) = is_heading_text t := by
  by_cases h : (pyStrip t.data).length < 2
  · simp [is_heading_text, pyStripStr, pyStrip_idem, h]
  · have hne : pyStrip t.data ≠ [] := by
      intro hh
      rw [hh] at h
      simp at h
    have htd : t.data ≠ [] := by
      intro hh
      apply hne
      rw [hh]
      rfl
    have e1 : decide ((pyStrip t.data).length < 2) = false := by simp; omega
    have i1 : (pyStrip t.data).isEmpty = false := by
      cases hl : pyStrip t.data with
      | nil => exact absurd hl hne
      | cons a l => rfl
    have i2 : t.data.isEmpty = false := by
      cases hl : t.data with
      | nil => exact absurd hl htd
      | cons a l => rfl
    simp only [is_heading_text, pyStripStr, pyStrip_idem, e1, i1, i2,
      Bool.or_self, Bool.false_eq_true, if_false]

theorem listLe_total : ∀ a b : List Char, listLe a b = true ∨ listLe b a = true := by
  intro a
  induction a with
  | nil => intro b; exact Or.inl rfl
  | cons x xs ih =>
    intro b
    cases b with
    | nil => exact Or.inr rfl
    | cons y ys =>
      simp only [listLe]
      by_cases h1 : x.toNat < y.toNat
      · left
        rw [if_pos h1]
      · by_cases h2 : y.toNat < x.toNat
        · right
          rw [if_pos h2]
        · rcases ih ys with h | h
          · left
            rw [if_neg h1, if_neg h2]
            exact h
          · right
            rw [if_neg h2, if_neg h1]
            exact h

theorem listLe_trans : ∀ a b c : List Char,
    listLe a b = true → listLe b c = true → listLe a c = true := by
  intro a
  induction a with
  | nil => intro b c _ _; rfl
  | cons x xs ih =>
    intro b c hab hbc
    cases b with
    | nil => simp [listLe] at hab
    | cons y ys =>
      cases c with
      | nil => simp [listLe] at hbc
      | cons z zs =>
        simp only [listLe] at hab hbc ⊢
        by_cases h1 : x.toNat < y.toNat
        · by_cases h2 : y.toNat < z.toNat
          · rw [if_pos (by omega)]
          · by_cases h3 : z.toNat < y.toNat
            · rw [if_neg h2, if_pos h3] at hbc
              exact absurd hbc (by simp)
            · rw [if_pos (by omega)]
        · by_cases h4 : y.toNat < x.toNat
          · rw [if_neg h1, if_pos h4] at hab
            exact absurd hab (by simp)
          · rw [if_neg h1, if_neg h4] at hab
            by_cases h2 : y.toNat < z.toNat
            · rw [if_pos (by omega)]
            · by_cases h3 : z.toNat < y.toNat
              · rw [if_neg h2, if_pos h3] at hbc
                exact absurd hbc (by simp)
              · rw [if_neg h2, if_neg h3] at hbc
                rw [if_neg (by omega), if_neg (by omega)]
                exact ih ys zs hab hbc

instance : IsTotal Entry entryLeP := by
  constructor
  intro a b
  rcases Nat.lt_trichotomy a.page b.page with h | h | h
  · exact Or.inl (Or.inl h)
  · rcases listLe_total a.level.data b.level.data with hl | hl
    · exact Or.inl (Or.inr ⟨h, hl⟩)
    · exact Or.inr (Or.inr ⟨h.symm, hl⟩)
  · exact Or.inr (Or.inl h)

instance : IsTrans Entry entryLeP := by
  constructor
  intro a b c hab hbc
  rcases hab with h | ⟨h, hl⟩ <;> rcases hbc with h' | ⟨h', hl'⟩
  · exact Or.inl (by omega)
  · exact Or.inl (by omega)
  · exact Or.inl (by omega)
  · exact Or.inr ⟨by omega, listLe_trans _ _ _ hl hl'⟩

/-- Example document: the spec's Scenario A (page 1 with INTRODUCTION 24pt,
"1. Overview" 18pt, "1.1 Background" 14pt, no metadata title). -/
def exDoc : List (List RawSpan) :=
  [[⟨"INTRODUCTION", 24, 0, "F", (0, 0, 0, 0)⟩,
    ⟨"1. Overview", 18, 0, "F", (0, 10, 0, 0)⟩,
    ⟨"1.1 Background", 14, 0, "F", (0, 20, 0, 0)⟩]]

/-- C3: the emitted outline is pairwise sorted ascending by page number,
and on equal pages by the level label in lexicographic (code point)
order, which is the final `(page, level)` sort of the source. -/
theorem outline_sorted_by_page_then_level (meta : Option String) (pages : List (List RawSpan)) :
    List.Pairwise entryLeP (extract meta pages).outline := by
  unfold extract
  by_cases h : (collectBlocks pages).isEmpty
  · simp [h]
  · simp only [h, Bool.false_eq_true, if_false]
    exact List.sorted_insertionSort entryLeP _

/-- C2: the resolved title never appears as the text of an outline
entry — the heading loop filters out blocks whose text equals the
title. -/
theorem title_excluded_from_outline (meta : Option String) (pages : List (List RawSpan))
    (e : Entry) (he : e ∈ (extract meta pages).outline) :
    e.text ≠ (extract meta pages).title := by
  unfold extract at he ⊢
  by_cases h : (collectBlocks pages).isEmpty
  · simp [h] at he
  · simp only [h, Bool.false_eq_true, if_false] at he ⊢
    have hperm := List.perm_insertionSort entryLeP
      (buildHeadings (collectBlocks pages) (resolveTitle meta (collectBlocks pages)))
    rw [hperm.mem_iff] at he
    unfold buildHeadings at he
    rw [List.mem_map] at he
    obtain ⟨b, hb, rfl⟩ := he
    rw [List.mem_filter] at hb
    have hq := hb.2
    unfold qualifies at hq
    simp only [Bool.and_eq_true, Bool.not_eq_true', beq_eq_false_iff_ne] at hq
    exact hq.2

/-- Witness for C2 on Scenario A: "1. Overview" is in the outline and
differs from the resolved title "INTRODUCTION". -/
theorem title_excluded_from_outline_witness :
    (⟨"H2", "1. Overview", 1⟩ : Entry) ∈ (extract none exDoc).outline ∧
      (Entry.mk "H2" "1. Overview" 1).text ≠ (extract none exDoc).title :=
  ⟨by decide,
    title_excluded_from_outline none exDoc ⟨"H2", "1. Overview", 1⟩ (by decide)⟩

/-- C4 counterexample: a document with an empty page 1 and an
INTRODUCTION span on page 2. Page 1 has no spans, yet the result is not
("Unknown Title", []): the guard tests ALL pages, the metadata-less
title stays "" and the page-2 heading is emitted. -/
theorem empty_first_page_counterexample :
    firstPageBlocks (collectBlocks
        [[], [⟨"INTRODUCTION", 12, 0, "F", (0, 0, 0, 0)⟩]]) = [] ∧
      extract none [[], [⟨"INTRODUCTION", 12, 0, "F", (0, 0, 0, 0)⟩]] ≠
        ⟨"Unknown Title", []⟩ := by decide

/-- C4 amended: when the WHOLE document has no non-whitespace spans, the
result short-circuits to title "Unknown Title" and an empty outline. -/
theorem no_spans_unknown_title (meta : Option String) (pages : List (List RawSpan))
    (h : collectBlocks pages = []) :
    extract meta pages = ⟨"Unknown Title", []⟩ := by
  unfold extract
  rw [h]
  rfl

/-- Witness for the amended C4: a document whose only span is
whitespace collects no blocks and yields ("Unknown Title", []). -/
theorem no_spans_unknown_title_witness :
    collectBlocks [[⟨"   ", 5, 0, "F", (0, 0, 0, 0)⟩]] = [] ∧
      extract none [[⟨"   ", 5, 0, "F", (0, 0, 0, 0)⟩]] = ⟨"Unknown Title", []⟩ :=
  ⟨by decide,
    no_spans_unknown_title none [[⟨"   ", 5, 0, "F", (0, 0, 0, 0)⟩]] (by decide)⟩

/-- C5 counterexample: when no page-1 span passes the title scan, the
metadata title "Unknown" is kept (7 ≥ 3 chars), while an absent metadata
title falls back to the largest page-1 span — the results differ. -/
theorem unknown_metadata_counterexample :
    extract (some "Unknown") [[⟨"ab", 12, 0, "F", (0, 0, 0, 0)⟩]] ≠
      extract none [[⟨"ab", 12, 0, "F", (0, 0, 0, 0)⟩]] := by decide

/-- C5 amended: a metadata title "Unknown" enters the body-scan path like
an absent one, and whenever the top-5 page-1 scan finds a qualifying
span the two results are identical; only the no-qualifier fallback
differs. -/
theorem unknown_metadata_like_absent (pages : List (List RawSpan))
    (h : ((List.insertionSort titleKeyLe (firstPageBlocks (collectBlocks pages))).take 5).find?
        scanPred ≠ none) :
    extract (some "Unknown") pages = extract none pages := by
  by_cases hemp : (collectBlocks pages).isEmpty
  · exfalso
    apply h
    rw [List.isEmpty_iff] at hemp
    rw [hemp]
    rfl
  · have htitle : resolveTitle (some "Unknown") (collectBlocks pages)
        = resolveTitle none (collectBlocks pages) := by
      unfold resolveTitle
      simp only [Option.getD]
      rw [if_pos (Or.inr trivial), if_pos (Or.inl trivial)]
      by_cases hf : (firstPageBlocks (collectBlocks pages)).isEmpty
      · exfalso
        apply h
        rw [List.isEmpty_iff] at hf
        rw [hf]
        rfl
      · simp only [hf, Bool.false_eq_true, if_false]
        cases hfind : ((List.insertionSort titleKeyLe
            (firstPageBlocks (collectBlocks pages))).take 5).find? scanPred with
        | none => exact absurd hfind h
        | some b =>
          have hp := List.find?_some hfind
          simp only [scanPred, Bool.and_eq_true, decide_eq_true_eq] at hp
          obtain ⟨-, hlen⟩ := hp
          have h1 : b.text ≠ "" := by
            intro he
            rw [he] at hlen
            simp at hlen
          have h2 : ¬ b.text.length < 3 := by omega
          simp [h1, h2]
    simp only [extract, hemp, Bool.false_eq_true, if_false, htitle]

/-- Witness for the amended C5 on Scenario A, where the scan finds
INTRODUCTION. -/
theorem unknown_metadata_like_absent_witness :
    ((List.insertionSort titleKeyLe (firstPageBlocks (collectBlocks exDoc))).take 5).find?
        scanPred ≠ none ∧
      extract (some "Unknown") exDoc = extract none exDoc :=
  ⟨by decide, unknown_metadata_like_absent exDoc (by decide)⟩

/-- C8: a `.pdf` file whose extraction raises gets exactly the
placeholder sidecar {"title": "Error Processing Document", "outline": []},
and the driver still processes every file before and after it — the
per-file loop is total, no exception propagates. -/
theorem failing_file_placeholder (pre post : List (String × ParsedDoc))
    (name : String) (err : String) (hpdf : endsWithPdf name = true) :
    driver (pre ++ (name, Except.error err) :: post) =
      driver pre ++ ⟨jsonName name, placeholderResult⟩ :: driver post := by
  simp [driver, List.filterMap_append, List.filterMap_cons, hpdf, processOne]

/-- Witness for C8: a concrete batch with a failing middle file. -/
theorem failing_file_placeholder_witness :
    endsWithPdf "bad.PDF" = true ∧
      driver [("a.pdf", Except.ok (none, [])), ("bad.PDF", Except.error "boom"),
          ("notes.txt", Except.error "x")] =
        driver [("a.pdf", Except.ok (none, []))] ++
          ⟨jsonName "bad.PDF", placeholderResult⟩ ::
            driver [("notes.txt", Except.error "x")] :=
  ⟨by decide,
    failing_file_placeholder [("a.pdf", Except.ok (none, []))]
      [("notes.txt", Except.error "x")] "bad.PDF" "boom" (by decide)⟩

/-- C9: no deduplication — for every text and page, the outline holds
exactly as many entries with that text and page as there are qualifying
spans (heading-shaped, anchor size, text different from the title), so a
running header is emitted once per page on which it occurs. -/
theorem no_dedup_outline_count (meta : Option String) (pages : List (List RawSpan))
    (t : String) (p : ℕ) :
    ((extract meta pages).outline.countP (fun e => e.text == t && e.page == p))
      = ((collectBlocks pages).countP (fun b =>
          qualifies (collectBlocks pages) (extract meta pages).title b
            && (b.text == t) && (b.page == p))) := by
  by_cases h : (collectBlocks pages).isEmpty
  · rw [List.isEmpty_iff] at h
    simp [extract, h]
  · simp only [extract, h, Bool.false_eq_true, if_false]
    rw [(List.perm_insertionSort entryLeP _).countP_eq]
    unfold buildHeadings
    rw [List.countP_map, List.countP_filter]
    congr 1
    funext b
    simp only [Function.comp]
    cases hq : qualifies (collectBlocks pages)
        (resolveTitle meta (collectBlocks pages)) b <;>
      simp [hq, Bool.and_comm, Bool.and_left_comm, Bool.and_assoc]

instance : IsTotal ℚ sizeGe := ⟨fun a b => le_total b a⟩

instance : IsTrans ℚ sizeGe := ⟨fun _ _ _ hab hbc => le_trans hbc hab⟩

/-- A label paired in `(fontSizes).take 3 zip [H1,H2,H3]` lies among the
first `fontSizes.length` labels. -/
theorem zip_label_mem : ∀ (fs : List ℚ) (sz : ℚ) (lvl : String),
    (sz, lvl) ∈ (fs.take 3).zip ["H1", "H2", "H3"] →
      lvl ∈ ["H1", "H2", "H3"].take fs.length := by
  intro fs sz lvl h
  match fs with
  | [] => simp at h
  | [a] =>
    simp only [List.take, List.zip, List.zipWith, List.mem_singleton] at h
    rw [Prod.mk.injEq] at h
    simp [h.2]
  | [a, b] =>
    simp only [List.take, List.zip, List.zipWith, List.mem_cons,
      List.mem_singleton, List.not_mem_nil, or_false] at h
    rcases h with h | h <;> rw [Prod.mk.injEq] at h <;> simp [h.2]
  | a :: b :: c :: rest =>
    have hlen : (["H1", "H2", "H3"] : List String).length ≤ (a :: b :: c :: rest).length := by
      simp only [List.length_cons, List.length_nil]
      omega
    rw [List.take_of_length_le hlen]
    simp only [List.take, List.zip, List.zipWith, List.mem_cons,
      List.not_mem_nil, or_false] at h
    rcases h with h | h | h <;> rw [Prod.mk.injEq] at h <;> simp [h.2]

/-- On a duplicate-free size list the i-th size (i < 3) is looked up to
the i-th label H1/H2/H3. -/
theorem levelOf_index : ∀ (fs : List ℚ), fs.Nodup → ∀ i : ℕ, i < 3 →
    ∀ sz : ℚ, fs[i]? = some sz →
      (((fs.take 3).zip ["H1", "H2", "H3"]).find?
          (fun p => decide (p.1 = sz))).map (fun p => p.2)
        = some (["H1", "H2", "H3"].getD i "") := by
  intro fs hnd i hi3 sz hsz
  match fs with
  | [] => simp at hsz
  | [a] =>
    interval_cases i
    · simp only [List.getElem?_cons_zero, Option.some.injEq] at hsz
      subst hsz
      simp [List.find?]
    · simp at hsz
    · simp at hsz
  | [a, b] =>
    obtain ⟨ha, -⟩ := List.nodup_cons.mp hnd
    have hab : a ≠ b := fun he => ha (by rw [he]; exact List.mem_singleton_self b)
    interval_cases i
    · simp only [List.getElem?_cons_zero, Option.some.injEq] at hsz
      subst hsz
      simp [List.find?]
    · simp only [List.getElem?_cons_succ, List.getElem?_cons_zero,
        Option.some.injEq] at hsz
      subst hsz
      simp [List.find?, hab]
    · simp at hsz
  | a :: b :: c :: rest =>
    obtain ⟨ha, hnd2⟩ := List.nodup_cons.mp hnd
    obtain ⟨hb, -⟩ := List.nodup_cons.mp hnd2
    have hab : a ≠ b := fun he => ha (by rw [he]; exact List.mem_cons_self b _)
    have hac : a ≠ c :=
      fun he => ha (by rw [he]; exact List.mem_cons_of_mem _ (List.mem_cons_self c _))
    have hbc : b ≠ c := fun he => hb (by rw [he]; exact List.mem_cons_self c _)
    interval_cases i
    · simp only [List.getElem?_cons_zero, Option.some.injEq] at hsz
      subst hsz
      simp [List.find?]
    · simp only [List.getElem?_cons_succ, List.getElem?_cons_zero,
        Option.some.injEq] at hsz
      subst hsz
      simp [List.find?, hab]
    · simp only [List.getElem?_cons_succ, List.getElem?_cons_zero,
        Option.some.injEq] at hsz
      subst hsz
      simp [List.find?, hac, hbc]

/-- C1: the distinct font sizes of heading-classified blocks, sorted
descending and duplicate-free, are anchored index-wise to H1/H2/H3
(largest to H1, second to H2, third to H3); every emitted outline entry
uses one of the first `min 3 (number of distinct sizes)` labels, so one
distinct size means every entry is H1; `extract` is total, so no error
occurs. -/
theorem outline_level_assignment (meta : Option String) (pages : List (List RawSpan)) :
    List.Sorted sizeGe (fontSizes (collectBlocks pages))
    ∧ (fontSizes (collectBlocks pages)).Nodup
    ∧ (∀ sz : ℚ, sz ∈ fontSizes (collectBlocks pages) ↔
        ∃ b ∈ collectBlocks pages, is_heading_text b.text = true ∧ b.size = sz)
    ∧ (∀ i : ℕ, i < 3 → ∀ sz : ℚ, (fontSizes (collectBlocks pages))[i]? = some sz →
        levelOf (collectBlocks pages) sz = some (["H1", "H2", "H3"].getD i ""))
    ∧ (∀ e ∈ (extract meta pages).outline,
        e.level ∈ ["H1", "H2", "H3"].take (fontSizes (collectBlocks pages)).length) := by
  have hnd : (fontSizes (collectBlocks pages)).Nodup :=
    (List.perm_insertionSort sizeGe _).nodup_iff.mpr (List.nodup_dedup _)
  refine ⟨List.sorted_insertionSort sizeGe _, hnd, ?_, ?_, ?_⟩
  · intro sz
    rw [fontSizes, (List.perm_insertionSort sizeGe _).mem_iff]
    unfold candidateSizes
    rw [List.mem_dedup, List.mem_map]
    constructor
    · rintro ⟨b, hb, rfl⟩
      rw [List.mem_filter] at hb
      exact ⟨b, hb.1, hb.2, rfl⟩
    · rintro ⟨b, hb, hh, rfl⟩
      exact ⟨b, List.mem_filter.mpr ⟨hb, hh⟩, rfl⟩
  · intro i hi3 sz hsz
    exact levelOf_index (fontSizes (collectBlocks pages)) hnd i hi3 sz hsz
  · intro e he
    unfold extract at he
    by_cases hemp : (collectBlocks pages).isEmpty
    · rw [if_pos hemp] at he
      simp at he
    · simp only [hemp, Bool.false_eq_true, if_false] at he
      rw [(List.perm_insertionSort entryLeP _).mem_iff] at he
      unfold buildHeadings at he
      rw [List.mem_map] at he
      obtain ⟨b, hb, rfl⟩ := he
      rw [List.mem_filter] at hb
      have hq := hb.2
      simp only [qualifies, Bool.and_eq_true] at hq
      obtain ⟨⟨-, hsome⟩, -⟩ := hq
      cases hfind : (headingLevels (collectBlocks pages)).find?
          (fun p => decide (p.1 = b.size)) with
      | none =>
        rw [levelOf, hfind] at hsome
        simp at hsome
      | some pr =>
        have hlv : levelOf (collectBlocks pages) b.size = some pr.2 := by
          rw [levelOf, hfind]
          rfl
        show ((levelOf (collectBlocks pages) b.size).getD "") ∈ _
        rw [hlv, Option.getD_some]
        have hmem := List.mem_of_find?_eq_some hfind
        exact zip_label_mem (fontSizes (collectBlocks pages)) pr.1 pr.2
          (by rw [Prod.mk.eta]; exact hmem)

/-- Witness for C1 on Scenario A: the 18 pt entry carries label "H2",
one of the assignable labels. -/
theorem outline_level_assignment_witness :
    (⟨"H2", "1. Overview", 1⟩ : Entry) ∈ (extract none exDoc).outline ∧
      (Entry.mk "H2" "1. Overview" 1).level ∈
        ["H1", "H2", "H3"].take (fontSizes (collectBlocks exDoc)).length :=
  ⟨by decide,
    (outline_level_assignment none exDoc).2.2.2.2 ⟨"H2", "1. Overview", 1⟩ (by decide)⟩
